import Mathlib

/-!
# Cartesian velocity controller of `ur_modern_driver`

A shallow embedding of `include/kinematic_chain_controller_base.h` and
`src/cartesian_velocity_controller.cpp`.

Conventions of the embedding:

* C++ `double` values and `ros::Time` values are exact rationals (seconds);
  `1.0/publish_rate_` is exact rational division.
* The constructor `ros::Duration(double)`, which holds a period as a whole
  number of nanoseconds, is library code; it is the parameter `Duration` of the
  embedding, and `nanosecondDuration` is the conversion roscpp performs.
* A `KDL::JntArray` is a list of rationals.  Indexing it out of range, and
  dereferencing a null pointer, is undefined behaviour in C++; a function of the
  embedding that would do so returns `none`.
* The URDF parser, the KDL tree builder, the KDL chain extraction and the KDL
  solvers are library code; they are parameters of the embedding.
* Logging is not modelled.
-/

namespace UrModernDriver

/-! ## `KDL::JntArray` -/

/-- A `KDL::JntArray`: a resizable vector of doubles. -/
abbrev JntArray := List ℚ

/-- The call `JntArray::resize(n)`: keeps the leading entries and fills with zeros. -/
def JntArray.resize (a : JntArray) (n : Nat) : JntArray :=
  a.take n ++ List.replicate (n - a.length) 0

/-- Reading `a(i)`; `none` when `i` is out of range. -/
def JntArray.read (a : JntArray) (i : Nat) : Option ℚ :=
  a[i]?

/-- The assignment `a(i) = v`; `none` when `i` is out of range. -/
def JntArray.write (a : JntArray) (i : Nat) (v : ℚ) : Option JntArray :=
  if i < a.length then some (a.set i v) else none

/-- A `KDL::JntArrayVel`: positions `q` and velocities `qdot`. -/
structure JntArrayVel where
  q : JntArray
  qdot : JntArray
deriving DecidableEq, Repr

/-- The call `JntArrayVel::resize(n)`. -/
def JntArrayVel.resize (a : JntArrayVel) (n : Nat) : JntArrayVel :=
  ⟨JntArray.resize a.q n, JntArray.resize a.qdot n⟩

/-! ## The URDF model, as far as `init` reads it -/

/-- The `urdf::JointLimits` fields read by `init`. -/
structure JointLimits where
  lower : ℚ
  upper : ℚ
deriving DecidableEq, Repr

/-- The `urdf::Joint` type tag. -/
inductive JointType where
  | UNKNOWN | REVOLUTE | CONTINUOUS | PRISMATIC | FLOATING | PLANAR | FIXED
deriving DecidableEq, Repr

/-- A `urdf::Joint`; `limits = none` is the null `limits` pointer. -/
structure Joint where
  name : String
  type : JointType
  limits : Option JointLimits
  parent_link_name : String
  child_link_name : String
deriving DecidableEq, Repr

/-- A `urdf::Link`.  `parent_joint = none` is the null `parent_joint` pointer;
`parent_link` is the name of the link `getParent()` points to, `none` when
`getParent()` is null. -/
structure Link where
  name : String
  parent_joint : Option Joint
  parent_link : Option String
deriving DecidableEq, Repr

/-- A `urdf::Model`: its `links_` and `joints_` maps. -/
structure Model where
  links_ : List Link
  joints_ : List Joint
deriving DecidableEq, Repr

/-- The call `model.getLink(name)`; `none` is the null pointer. -/
def Model.getLink (model : Model) (name : String) : Option Link :=
  model.links_.find? (fun l => l.name = name)

/-- The call `model.getJoint(name)`; `none` is the null pointer. -/
def Model.getJoint (model : Model) (name : String) : Option Joint :=
  model.joints_.find? (fun j => j.name = name)

/-! ## The KDL chain, as far as the controller reads it -/

namespace KDL

/-- The `KDL::Joint::JointType` tag; `None` is a rigid connection. -/
inductive JointType where
  | RotAxis | RotX | RotY | RotZ | TransAxis | TransX | TransY | TransZ | None
deriving DecidableEq, Repr

/-- A `KDL::Joint`. -/
structure Joint where
  name : String
  type : JointType
deriving DecidableEq, Repr

/-- A `KDL::Segment`. -/
structure Segment where
  name : String
  joint : Joint
deriving DecidableEq, Repr

/-- A `KDL::Chain`: its segments from root to tip. -/
structure Chain where
  segments : List Segment
deriving DecidableEq, Repr

/-- The call `Chain::getNrOfSegments()`. -/
def Chain.getNrOfSegments (c : Chain) : Nat :=
  c.segments.length

/-- The call `Chain::getNrOfJoints()`: the segments whose joint is not `None`. -/
def Chain.getNrOfJoints (c : Chain) : Nat :=
  (c.segments.filter (fun s => s.joint.type ≠ JointType.None)).length

/-- An element of a `KDL::Tree`: a segment and the name of its parent segment. -/
structure TreeElement where
  segment : Segment
  parent : Option String
deriving DecidableEq, Repr

/-- A `KDL::Tree`. -/
structure Tree where
  root_name : String
  segments : List TreeElement
deriving DecidableEq, Repr

end KDL

/-! ## `KinematicChainControllerBase` -/

/-- The struct `limits_`. -/
structure limits_ where
  min : JntArray
  max : JntArray
  center : JntArray
deriving DecidableEq, Repr

/-- The data members of `KinematicChainControllerBase`. -/
structure KinematicChainControllerBase where
  kdl_chain_ : KDL.Chain
  joint_msr_ : JntArrayVel
  joint_limits_ : limits_
deriving DecidableEq, Repr

/-- A freshly constructed `KinematicChainControllerBase`. -/
def KinematicChainControllerBase.fresh : KinematicChainControllerBase :=
  ⟨⟨[]⟩, ⟨[], []⟩, ⟨[], [], []⟩⟩

/-- A value on the parameter server. -/
inductive XmlRpcValue where
  | string (s : String)
  | double (d : ℚ)
  | int (i : Int)
  | other

/-- A `ros::NodeHandle` with the parameter server it reads: `params` maps a
resolved parameter name to its value, `search key` is the result of
`ros::param::search(name_space, key, result)`. -/
structure NodeHandle where
  name_space : String
  params : String → Option XmlRpcValue
  search : String → Option String

/-- Name resolution: a name starting with `/` is global, any other name is
relative to the namespace of the handle. -/
def NodeHandle.resolveName (n : NodeHandle) (key : String) : String :=
  if key.toList.head? = some '/' then key else n.name_space ++ "/" ++ key

/-- The call `hasParam(key)`. -/
def NodeHandle.hasParam (n : NodeHandle) (key : String) : Bool :=
  (n.params (n.resolveName key)).isSome

/-- The call `getParam(key, std::string&)`: `none` when it returns false. -/
def NodeHandle.getParamString (n : NodeHandle) (key : String) : Option String :=
  match n.params (n.resolveName key) with
  | some (XmlRpcValue.string s) => some s
  | _ => none

/-- The call `getParam(key, double&)`: `none` when it returns false. -/
def NodeHandle.getParamDouble (n : NodeHandle) (key : String) : Option ℚ :=
  match n.params (n.resolveName key) with
  | some (XmlRpcValue.double d) => some d
  | some (XmlRpcValue.int i) => some (i : ℚ)
  | _ => none

/-- The library calls made by `KinematicChainControllerBase::init`.
`getChain tree root tip chain` returns the success flag and the value left in
the output argument. -/
structure Parsers where
  initString : String → Option Model
  treeFromUrdfModel : Model → Option KDL.Tree
  getChain : KDL.Tree → String → String → KDL.Chain → Bool × KDL.Chain

/-- The body of one iteration of the limits loop that writes slot `index`:
the two branches on `joint_->limits`. -/
def writeLimits (jl : limits_) (index : Nat) (joint_ : Joint) : Option limits_ :=
  match joint_.limits with
  | some lim => do
    let mn ← JntArray.write jl.min index lim.lower
    let mx ← JntArray.write jl.max index lim.upper
    let a ← JntArray.read mn index
    let b ← JntArray.read mx index
    let c ← JntArray.write jl.center index ((a + b) / 2)
    pure ⟨mn, mx, c⟩
  | none => do
    let mn ← JntArray.write jl.min index 0
    let mx ← JntArray.write jl.max index 0
    let c ← JntArray.write jl.center index 0
    pure ⟨mn, mx, c⟩

/-- The loop `for (i = 0; i < N && link_; i++)` of `init`, with `N` the value of
`kdl_chain_.getNrOfJoints()`.  The first argument bounds the number of
iterations still to run; `N` of them are enough from `i = 0`. -/
def limitsLoop (model : Model) (N : Nat) : Nat → Nat → Option Link → limits_ → Option limits_
  | 0, _, _, jl => some jl
  | fuel + 1, i, link_, jl =>
    if i < N then
      match link_ with
      | none => some jl
      | some link =>
        match link.parent_joint with
        | none => none
        | some pj =>
          match model.getJoint pj.name with
          | none => none
          | some joint_ =>
            let index := N - i - 1
            match writeLimits jl index joint_ with
            | none => none
            | some jl1 =>
              match link.parent_link with
              | none => none
              | some parent => limitsLoop model N fuel (i + 1) (model.getLink parent) jl1
    else some jl

/-- The part of `init` headed "Parsing joint limits from urdf model along kdl
chain": the three resizes and the loop. -/
def parseJointLimits (model : Model) (tip_name : String) (N : Nat) (jl : limits_) :
    Option limits_ :=
  let link_ := model.getLink tip_name
  let jl1 : limits_ :=
    ⟨JntArray.resize jl.min N, JntArray.resize jl.max N, JntArray.resize jl.center N⟩
  limitsLoop model N N 0 link_ jl1

/-- The function `KinematicChainControllerBase::init`.  The result is the
returned flag and the object after the call; `none` when the call runs into
undefined behaviour. -/
def KinematicChainControllerBase.init (lib : Parsers) (n : NodeHandle)
    (self : KinematicChainControllerBase) : Option (Bool × KinematicChainControllerBase) :=
  let name_space := n.name_space
  match n.search "robot_description" with
  | none => some (false, self)
  | some robot_description =>
    match n.getParamString (name_space ++ "/root_name") with
    | none => some (false, self)
    | some root_name =>
      match n.getParamString (name_space ++ "/tip_name") with
      | none => some (false, self)
      | some tip_name =>
        if n.hasParam robot_description then
          let xml_string := (n.getParamString robot_description).getD ""
          if xml_string.length = 0 then some (false, self)
          else
            match lib.initString xml_string with
            | none => some (false, self)
            | some model =>
              match lib.treeFromUrdfModel model with
              | none => some (false, self)
              | some kdl_tree =>
                let r := lib.getChain kdl_tree root_name tip_name self.kdl_chain_
                let self1 := { self with kdl_chain_ := r.2 }
                if r.1 then
                  match parseJointLimits model tip_name self1.kdl_chain_.getNrOfJoints
                      self1.joint_limits_ with
                  | none => none
                  | some jl => some (true, { self1 with joint_limits_ := jl })
                else some (false, self1)
        else some (false, self)

/-! ## `CartesianVelocityControllerBase` -/

/-- A generic `for (i = 0; i < n; i++) body` loop over a state that may run into
undefined behaviour. -/
def forLoop {σ : Type} (n : Nat) (body : Nat → σ → Option σ) (s : σ) : Option σ :=
  (List.range n).foldlM (fun acc i => body i acc) s

/-- A `KDL::Vector`. -/
structure Vector where
  x : ℚ
  y : ℚ
  z : ℚ
deriving DecidableEq, Repr

/-- The value `KDL::Vector::Zero()`. -/
def Vector.Zero : Vector := ⟨0, 0, 0⟩

/-- A `KDL::Twist`: linear velocity `vel` and angular velocity `rot`. -/
structure Twist where
  vel : Vector
  rot : Vector
deriving DecidableEq, Repr

/-- The value `KDL::Twist::Zero()`. -/
def Twist.Zero : Twist := ⟨Vector.Zero, Vector.Zero⟩

/-- The six scalar components of a twist. -/
def Twist.components (t : Twist) : List ℚ :=
  [t.vel.x, t.vel.y, t.vel.z, t.rot.x, t.rot.y, t.rot.z]

/-- A `KDL::Frame`: position and the nine entries of the rotation matrix. -/
structure Frame where
  p : Vector
  M : List ℚ
deriving DecidableEq, Repr

/-- A `KDL::FrameVel`: a frame with the velocity of its position (`v`) and the
angular velocity of its rotation (`w`). -/
structure FrameVel where
  frame : Frame
  v : Vector
  w : Vector
deriving DecidableEq, Repr

/-- The call `FrameVel::GetTwist()`. -/
def FrameVel.GetTwist (f : FrameVel) : Twist := ⟨f.v, f.w⟩

/-- A joint handle of the hardware interface: the measured position and velocity
it reads, and the command slot `setCommand` writes. -/
structure JointHandle where
  position : ℚ
  velocity : ℚ
  command : ℚ
deriving DecidableEq, Repr

/-- The call `setCommand(cmd)`. -/
def JointHandle.setCommand (h : JointHandle) (cmd : ℚ) : JointHandle :=
  { h with command := cmd }

/-- The message `cartesian_state_msgs::PoseTwist` published on `ee_state`; the
pose is kept as the KDL frame it is converted from. -/
structure PoseTwist where
  stamp : ℚ
  pose : Frame
  twist : Twist
deriving DecidableEq, Repr

/-- A `trajectory_msgs::JointTrajectoryPoint`. -/
structure JointTrajectoryPoint where
  positions : List ℚ
  velocities : List ℚ
  accelerations : List ℚ
  effort : List ℚ
  time_from_start : ℚ
deriving DecidableEq, Repr

/-- A `trajectory_msgs::JointTrajectory`. -/
structure JointTrajectory where
  frame_id : String
  joint_names : List String
  points : List JointTrajectoryPoint
deriving DecidableEq, Repr

/-- The KDL solvers.  Each writes its result into an output argument; the model
of a solver gets the previous value of that argument and gives the value left
in it.  `ikVel chain q v qdot_out i` is component `i` of the joint-velocity
array after `CartToJnt(q, v, qdot_out)`; the call does not resize the array.
The status the solvers return is discarded by the controller. -/
structure Solvers where
  ikVel : KDL.Chain → JntArray → Twist → JntArray → Nat → ℚ
  fkVel : KDL.Chain → JntArrayVel → FrameVel → FrameVel
  fkPos : KDL.Chain → JntArray → Frame → Frame

/-- The data members of `CartesianVelocityControllerBase<T>`. -/
structure CartesianVelocityControllerBase extends KinematicChainControllerBase where
  joint_handles_ : List JointHandle
  q_dt_cmd_ : JntArray
  x_dt_des_ : Twist
  x_ : Frame
  x_dot_ : FrameVel
  last_publish_time_ : ℚ
  publish_rate_ : ℚ
deriving DecidableEq, Repr

/-- The function `CartesianVelocityControllerBase<T>::init`.  The flag returned
by the base class is discarded.  The statements `x_.p.Zero()`,
`x_.M.Identity()`, `x_dot_.p.Zero()` and `x_dot_.M.Identity()` call static
functions and drop their result, so they change nothing. -/
def CartesianVelocityControllerBase.init (lib : Parsers) (n : NodeHandle)
    (self : CartesianVelocityControllerBase) :
    Option (Bool × CartesianVelocityControllerBase) :=
  match KinematicChainControllerBase.init lib n self.toKinematicChainControllerBase with
  | none => none
  | some (_, base) =>
    let self1 := { self with toKinematicChainControllerBase := base }
    match n.getParamDouble "publish_rate" with
    | none => some (false, self1)
    | some rate =>
      let N := self1.kdl_chain_.getNrOfJoints
      some (true, { self1 with
        publish_rate_ := rate
        joint_msr_ := JntArrayVel.resize self1.joint_msr_ N
        q_dt_cmd_ := JntArray.resize self1.q_dt_cmd_ N
        x_dt_des_ := Twist.Zero })

/-- The function `CartesianVelocityControllerBase<T>::starting`. -/
def CartesianVelocityControllerBase.starting (self : CartesianVelocityControllerBase)
    (time : ℚ) : Option CartesianVelocityControllerBase :=
  match forLoop self.joint_handles_.length (fun i q => JntArray.write q i 0) self.q_dt_cmd_ with
  | none => none
  | some q =>
    some { self with q_dt_cmd_ := q, x_dt_des_ := Twist.Zero, last_publish_time_ := time }

/-- The callback `CartesianVelocityControllerBase<T>::command_cart_vel`. -/
def CartesianVelocityControllerBase.command_cart_vel (self : CartesianVelocityControllerBase)
    (msg : Twist) : CartesianVelocityControllerBase :=
  { self with x_dt_des_ := ⟨⟨msg.vel.x, msg.vel.y, msg.vel.z⟩, ⟨msg.rot.x, msg.rot.y, msg.rot.z⟩⟩ }

/-- The function `CartesianVelocityController::writeVelocityCommands`: the
result is the object after the call and the trajectory published on
`/ur5/ur_driver/joint_speed`. -/
def CartesianVelocityController.writeVelocityCommands (self : CartesianVelocityControllerBase)
    (_period : ℚ) : Option (CartesianVelocityControllerBase × JointTrajectory) := do
  let hs ← forLoop self.joint_handles_.length
    (fun i hs => do
      let h ← hs[i]?
      let c ← JntArray.read self.q_dt_cmd_ i
      pure (hs.set i (h.setCommand c)))
    self.joint_handles_
  let v0 ← JntArray.read self.q_dt_cmd_ 0
  let v1 ← JntArray.read self.q_dt_cmd_ 1
  let v2 ← JntArray.read self.q_dt_cmd_ 2
  let v3 ← JntArray.read self.q_dt_cmd_ 3
  let v4 ← JntArray.read self.q_dt_cmd_ 4
  let v5 ← JntArray.read self.q_dt_cmd_ 5
  let traj : JointTrajectory :=
    { frame_id := "base_link"
      joint_names := ["shoulder_pan_joint", "shoulder_lift_joint", "elbow_joint",
        "wrist_1_joint", "wrist_2_joint", "wrist_3_joint"]
      points := [{ positions := List.replicate 6 0
                   velocities := [v0, v1, v2, v3, v4, v5]
                   accelerations := []
                   effort := []
                   time_from_start := 1 }] }
  pure ({ self with joint_handles_ := hs }, traj)

/-- The function `CartesianVelocityControllerSim::writeVelocityCommands`. -/
def CartesianVelocityControllerSim.writeVelocityCommands (self : CartesianVelocityControllerBase)
    (period : ℚ) : Option CartesianVelocityControllerBase := do
  let hs ← forLoop self.joint_handles_.length
    (fun i hs => do
      let h ← hs[i]?
      let q ← JntArray.read self.joint_msr_.q i
      let c ← JntArray.read self.q_dt_cmd_ i
      pure (hs.set i (h.setCommand (q + c * period))))
    self.joint_handles_
  pure { self with joint_handles_ := hs }

/-- The two instances of the base class. -/
inductive Variant where
  | CartesianVelocityController
  | CartesianVelocityControllerSim
deriving DecidableEq, Repr

/-- The virtual call `writeVelocityCommands(period)` made by `update`. -/
def writeVelocityCommands (variant : Variant) (self : CartesianVelocityControllerBase)
    (period : ℚ) : Option (CartesianVelocityControllerBase × Option JointTrajectory) :=
  match variant with
  | Variant.CartesianVelocityController =>
    (CartesianVelocityController.writeVelocityCommands self period).map
      (fun r => (r.1, some r.2))
  | Variant.CartesianVelocityControllerSim =>
    (CartesianVelocityControllerSim.writeVelocityCommands self period).map
      (fun r => (r, none))

/-- What one call of `update` sends out: the trajectory on
`/ur5/ur_driver/joint_speed` and the feedback message on `ee_state`. -/
structure Published where
  joint_speed : Option JointTrajectory
  ee_state : Option PoseTwist
deriving DecidableEq, Repr

/-- The first loop of `update`: copy the measured position and velocity of every
joint handle into `joint_msr_`. -/
def readJoints (self : CartesianVelocityControllerBase) : Option JntArrayVel :=
  forLoop self.joint_handles_.length
    (fun i msr => do
      let h ← self.joint_handles_[i]?
      let q ← JntArray.write msr.q i h.position
      let qdot ← JntArray.write msr.qdot i h.velocity
      pure ⟨q, qdot⟩)
    self.joint_msr_

/-- The block of `update` headed "Limit rate of publishing".  `Duration d` is the
value in seconds of `ros::Duration(d)`, the library's conversion of a double to
a duration of whole nanoseconds; `trylock` is the result
`realtime_pub_->trylock()` has in this cycle. -/
def publishStep (Duration : ℚ → ℚ) (self : CartesianVelocityControllerBase) (time : ℚ)
    (trylock : Bool) : CartesianVelocityControllerBase × Option PoseTwist :=
  if 0 < self.publish_rate_ ∧
      self.last_publish_time_ + Duration (1 / self.publish_rate_) < time then
    if trylock then
      ({ self with
          last_publish_time_ := self.last_publish_time_ + Duration (1 / self.publish_rate_) },
        some ⟨time, self.x_, self.x_dot_.GetTwist⟩)
    else (self, none)
  else (self, none)

/-- The function `CartesianVelocityControllerBase<T>::update`. -/
def CartesianVelocityControllerBase.update (Duration : ℚ → ℚ) (sol : Solvers)
    (variant : Variant)
    (self : CartesianVelocityControllerBase) (time period : ℚ) (trylock : Bool) :
    Option (CartesianVelocityControllerBase × Published) := do
  let msr ← readJoints self
  let self1 := { self with joint_msr_ := msr }
  let q_dt_cmd := (List.range self1.q_dt_cmd_.length).map
    (sol.ikVel self1.kdl_chain_ self1.joint_msr_.q self1.x_dt_des_ self1.q_dt_cmd_)
  let self2 := { self1 with q_dt_cmd_ := q_dt_cmd }
  let (self3, traj) ← writeVelocityCommands variant self2 period
  let self4 := { self3 with
    x_dot_ := sol.fkVel self3.kdl_chain_ self3.joint_msr_ self3.x_dot_ }
  let self5 := { self4 with x_ := sol.fkPos self4.kdl_chain_ self4.joint_msr_.q self4.x_ }
  let (self6, msg) := publishStep Duration self5 time trylock
  pure (self6, ⟨traj, msg⟩)

/-! ## Control cycles and runs -/

/-- The sizes `update` relies on: every joint handle has an entry in the
measured and commanded arrays, and the hardware variant finds the six entries
it copies into the trajectory. -/
def sized (variant : Variant) (self : CartesianVelocityControllerBase) : Prop :=
  self.joint_handles_.length ≤ self.joint_msr_.q.length ∧
  self.joint_handles_.length ≤ self.joint_msr_.qdot.length ∧
  self.joint_handles_.length ≤ self.q_dt_cmd_.length ∧
  (variant = Variant.CartesianVelocityController → 6 ≤ self.q_dt_cmd_.length)

instance (variant : Variant) (self : CartesianVelocityControllerBase) :
    Decidable (sized variant self) := by
  unfold sized; infer_instance

/-- What happens around one control cycle. -/
structure Cycle where
  time : ℚ
  period : ℚ
  trylock : Bool
  readings : List (ℚ × ℚ)
  command : Option Twist
deriving DecidableEq, Repr

/-- The hardware refreshes the measured position and velocity of the joint
handles before a cycle. -/
def sense : List JointHandle → List (ℚ × ℚ) → List JointHandle
  | [], _ => []
  | h :: hs, [] => h :: hs
  | h :: hs, r :: rs => { h with position := r.1, velocity := r.2 } :: sense hs rs

/-- One control cycle: the twist command received since the previous cycle, if
any, is stored by the callback, the hardware refreshes its readings, and
`update` runs. -/
def cycle (Duration : ℚ → ℚ) (sol : Solvers) (variant : Variant)
    (self : CartesianVelocityControllerBase) (c : Cycle) : Option (CartesianVelocityControllerBase × Published) :=
  let self1 := match c.command with
    | some msg => self.command_cart_vel msg
    | none => self
  let self2 := { self1 with joint_handles_ := sense self1.joint_handles_ c.readings }
  CartesianVelocityControllerBase.update Duration sol variant self2 c.time c.period c.trylock

/-- A run of control cycles; the result is the final controller and the number
of feedback messages published. -/
def run (Duration : ℚ → ℚ) (sol : Solvers) (variant : Variant) :
    CartesianVelocityControllerBase → List Cycle → Option (CartesianVelocityControllerBase × Nat)
  | self, [] => some (self, 0)
  | self, c :: cs =>
    match cycle Duration sol variant self c with
    | none => none
    | some (self1, out) =>
      match run Duration sol variant self1 cs with
      | none => none
      | some (self2, m) => some (self2, m + (if out.ee_state.isSome then 1 else 0))

/-- The time of the latest cycle of a run that started at `t0`. -/
def lastTime : ℚ → List Cycle → ℚ
  | t0, [] => t0
  | _, c :: cs => lastTime c.time cs

/-- Solvers that leave their output argument as it is. -/
def idleSolvers : Solvers :=
  ⟨fun _ _ _ qdot i => qdot.getD i 0, fun _ _ out => out, fun _ _ out => out⟩

/-! ## Vocabulary for the limits loop, and example data -/

/-- The link the limits loop stands on at the start of iteration `i`: the tip
link for `i = 0`, then the parent of the previous one. -/
def linkAt (model : Model) (tip_name : String) : Nat → Option Link
  | 0 => model.getLink tip_name
  | i + 1 => (linkAt model tip_name i).bind (fun l => l.parent_link.bind model.getLink)

/-- The joint the limits loop reads in iteration `i`: the parent joint of the
link it stands on, looked up by name in the model. -/
def visitedJoint (model : Model) (tip_name : String) (i : Nat) : Option Joint :=
  (linkAt model tip_name i).bind (fun l =>
    l.parent_joint.bind (fun pj => model.getJoint pj.name))

/-- An iteration of the limits loop on link `l` dereferences no null pointer:
the link has a parent joint, the model knows that joint, and the link has a
parent link. -/
def stepDefined (model : Model) (l : Link) : Bool :=
  (l.parent_joint.bind (fun pj => model.getJoint pj.name)).isSome && l.parent_link.isSome

/-- The names of the joints of a chain that are not `None`, from root to tip. -/
def KDL.Chain.jointNames (c : KDL.Chain) : List String :=
  (c.segments.filter (fun s => s.joint.type ≠ KDL.JointType.None)).map (fun s => s.joint.name)

/-- A freshly constructed controller: empty arrays, no joint handles. -/
def CartesianVelocityControllerBase.fresh : CartesianVelocityControllerBase :=
  { toKinematicChainControllerBase := KinematicChainControllerBase.fresh
    joint_handles_ := []
    q_dt_cmd_ := []
    x_dt_des_ := Twist.Zero
    x_ := ⟨Vector.Zero, [1, 0, 0, 0, 1, 0, 0, 0, 1]⟩
    x_dot_ := ⟨⟨Vector.Zero, [1, 0, 0, 0, 1, 0, 0, 0, 1]⟩, Vector.Zero, Vector.Zero⟩
    last_publish_time_ := 0
    publish_rate_ := 0 }

/-- The revolute joint `j1` from link `A` to link `B`, with limits `[-1, 1]`. -/
def jointAB : Joint := ⟨"j1", JointType.REVOLUTE, some ⟨-1, 1⟩, "A", "B"⟩

/-- The fixed joint `j2` from link `B` to link `C`. -/
def fixedBC : Joint := ⟨"j2", JointType.FIXED, none, "B", "C"⟩

/-- The revolute joint `j2` from link `A` to link `C`, with limits `[-2, 2]`. -/
def jointAC : Joint := ⟨"j2", JointType.REVOLUTE, some ⟨-2, 2⟩, "A", "C"⟩

/-- The description `A -j1-> B -j2-> C` whose tip `C` hangs on a fixed joint. -/
def fixedTipModel : Model :=
  ⟨[⟨"A", none, none⟩, ⟨"B", some jointAB, some "A"⟩, ⟨"C", some fixedBC, some "B"⟩],
    [jointAB, fixedBC]⟩

/-- The chain KDL extracts from `fixedTipModel` between `A` and `C`: the
revolute joint `j1`, then the fixed joint `j2` as a joint of type `None`. -/
def fixedTipChain : KDL.Chain :=
  ⟨[⟨"B", ⟨"j1", KDL.JointType.RotAxis⟩⟩, ⟨"C", ⟨"j2", KDL.JointType.None⟩⟩]⟩

/-- The description with root `A` and the two branches `A -j1-> B` and
`A -j2-> C`. -/
def forkModel : Model :=
  ⟨[⟨"A", none, none⟩, ⟨"B", some jointAB, some "A"⟩, ⟨"C", some jointAC, some "A"⟩],
    [jointAB, jointAC]⟩

/-- The chain KDL extracts from `forkModel` between `B` and `C`: up from `B`
to `A` through `j1`, then down to `C` through `j2`. -/
def forkChain : KDL.Chain :=
  ⟨[⟨"A", ⟨"j1", KDL.JointType.RotAxis⟩⟩, ⟨"C", ⟨"j2", KDL.JointType.RotAxis⟩⟩]⟩

/-- The KDL tree of `fixedTipModel`. -/
def fixedTipTree : KDL.Tree :=
  ⟨"A", [⟨⟨"B", ⟨"j1", KDL.JointType.RotAxis⟩⟩, some "A"⟩,
    ⟨⟨"C", ⟨"j2", KDL.JointType.None⟩⟩, some "B"⟩]⟩

/-- The KDL tree of `forkModel`. -/
def forkTree : KDL.Tree :=
  ⟨"A", [⟨⟨"B", ⟨"j1", KDL.JointType.RotAxis⟩⟩, some "A"⟩,
    ⟨⟨"C", ⟨"j2", KDL.JointType.RotAxis⟩⟩, some "A"⟩]⟩

/-- The results of the library calls on a description that parses to `model`,
whose KDL tree is `tree` and whose chain between the configured root and tip
is `chain`. -/
def parsersFor (model : Model) (tree : KDL.Tree) (chain : KDL.Chain) : Parsers :=
  { initString := fun _ => some model
    treeFromUrdfModel := fun _ => some tree
    getChain := fun _ _ _ _ => (true, chain) }

/-- A parameter server holding a description, root and tip names and a publish
rate under the namespace `/arm`. -/
def nodeHandleFor (root_name tip_name : String) : NodeHandle :=
  { name_space := "/arm"
    params := fun key =>
      if key = "/robot_description" then some (XmlRpcValue.string "<robot/>")
      else if key = "/arm/root_name" then some (XmlRpcValue.string root_name)
      else if key = "/arm/tip_name" then some (XmlRpcValue.string tip_name)
      else if key = "/arm/publish_rate" then some (XmlRpcValue.double 100)
      else none
    search := fun key => if key = "robot_description" then some "/robot_description" else none }

/-- A parameter server that holds a publish rate and nothing else. -/
def nodeHandleRateOnly : NodeHandle :=
  { name_space := "/arm"
    params := fun key =>
      if key = "/arm/publish_rate" then some (XmlRpcValue.double 100) else none
    search := fun _ => none }

/-- The values an iteration writes for a joint: `(min, max, center)`. -/
def limitsEntry (j : Joint) : ℚ × ℚ × ℚ :=
  match j.limits with
  | some lim => (lim.lower, lim.upper, (lim.lower + lim.upper) / 2)
  | none => (0, 0, 0)

/-- A controller with two joints and two joint handles. -/
def twoJointController : CartesianVelocityControllerBase :=
  { kdl_chain_ := ⟨[⟨"l1", ⟨"j1", KDL.JointType.RotZ⟩⟩, ⟨"l2", ⟨"j2", KDL.JointType.RotZ⟩⟩]⟩
    joint_msr_ := ⟨[1, 2], [0, 0]⟩
    joint_limits_ := ⟨[-1, -1], [1, 1], [0, 0]⟩
    joint_handles_ := [⟨1, 0, 0⟩, ⟨2, 0, 0⟩]
    q_dt_cmd_ := [3, 4]
    x_dt_des_ := ⟨⟨1, 0, 0⟩, ⟨0, 0, 1⟩⟩
    x_ := ⟨⟨0, 0, 0⟩, [1, 0, 0, 0, 1, 0, 0, 0, 1]⟩
    x_dot_ := ⟨⟨⟨0, 0, 0⟩, [1, 0, 0, 0, 1, 0, 0, 0, 1]⟩, ⟨0, 0, 0⟩, ⟨0, 0, 0⟩⟩
    last_publish_time_ := 0
    publish_rate_ := 1 }

/-- The controller `twoJointController` with only its first joint handle. -/
def oneHandleController : CartesianVelocityControllerBase :=
  { twoJointController with joint_handles_ := [⟨1, 0, 0⟩] }

/-- A controller with six joints and six joint handles. -/
def sixJointController : CartesianVelocityControllerBase :=
  { twoJointController with
    joint_msr_ := ⟨[0, 0, 0, 0, 0, 0], [0, 0, 0, 0, 0, 0]⟩
    joint_handles_ := [⟨0, 0, 0⟩, ⟨0, 0, 0⟩, ⟨0, 0, 0⟩, ⟨0, 0, 0⟩, ⟨0, 0, 0⟩, ⟨0, 0, 0⟩]
    q_dt_cmd_ := [1, 2, 3, 4, 5, 6] }

/-- Three control cycles at times 1, 3 and 3; the publish channel is busy in the
last one. -/
def threeCycles : List Cycle :=
  [⟨1, 1 / 125, true, [], none⟩,
   ⟨3, 1 / 125, true, [(1, 1), (2, 2)], some ⟨⟨1, 0, 0⟩, ⟨0, 0, 0⟩⟩⟩,
   ⟨3, 1 / 125, false, [], none⟩]

/-- The value in seconds of `ros::Duration(d)` as roscpp builds it for a period
within its range: `d` rounded to the nearest whole number of nanoseconds.
(Releases that truncate instead give the same 333333333 ns for a third of a
second and the same 1000000000 ns for one second.) -/
def nanosecondDuration (d : ℚ) : ℚ :=
  (⌊d * 1000000000 + 1 / 2⌋ : ℤ) / 1000000000

/-- The two-joint controller with a publish rate of 3 per second. -/
def threeHertzController : CartesianVelocityControllerBase :=
  { twoJointController with publish_rate_ := 3 }

/-- Four control cycles, each one nanosecond after a multiple of 333333333 ns,
with the publish channel free. -/
def fourCycles : List Cycle :=
  [⟨333333334 / 1000000000, 1 / 125, true, [], none⟩,
   ⟨666666667 / 1000000000, 1 / 125, true, [], none⟩,
   ⟨1, 1 / 125, true, [], none⟩,
   ⟨1333333333 / 1000000000, 1 / 125, true, [], none⟩]

/-! ## Loops -/

theorem forLoop_zero {σ : Type} (body : Nat → σ → Option σ) (s : σ) :
    forLoop 0 body s = some s := by
  simp [forLoop]

theorem forLoop_succ {σ : Type} (n : Nat) (body : Nat → σ → Option σ) (s : σ) :
    forLoop (n + 1) body s = (forLoop n body s).bind (body n) := by
  simp [forLoop, List.range_succ, List.foldlM_append]

/-- The zeroing loop of `starting`: with `n` at most the size of the array, it
sets the first `n` entries to zero and keeps the others. -/
theorem zeroLoop_eq (a : JntArray) (n : Nat) (hn : n ≤ a.length) :
    forLoop n (fun i q => JntArray.write q i 0) a
      = some (List.replicate n 0 ++ a.drop n) := by
  induction n with
  | zero => simp [forLoop_zero]
  | succ k ih =>
    rw [forLoop_succ, ih (by omega)]
    have hlen : k < (List.replicate k (0 : ℚ) ++ List.drop k a).length := by
      simp; omega
    simp only [Option.some_bind, JntArray.write, hlen, if_true]
    congr 1
    apply List.ext_getElem?
    intro i
    simp only [List.getElem?_set, List.getElem?_append, List.getElem?_replicate, List.length_replicate,
      List.getElem?_drop]
    by_cases h1 : i < k
    · have : k ≠ i := by omega
      have h5 : i < k + 1 := by omega
      simp [h1, this, h5]
    · by_cases h2 : i = k
      · subst h2; simp; omega
      · have h3 : ¬ i < k + 1 := by omega
        have h4 : ¬ k = i := by omega
        simp [h1, h3, h4]
        congr 1; omega

/-- The zeroing loop of `starting` with more iterations than entries writes out
of range. -/
theorem zeroLoop_none (a : JntArray) (n : Nat) (hn : a.length < n) :
    forLoop n (fun i q => JntArray.write q i 0) a = none := by
  induction n with
  | zero => omega
  | succ k ih =>
    rw [forLoop_succ]
    by_cases h : k ≤ a.length
    · rw [zeroLoop_eq a k h]
      have : ¬ k < (List.replicate k (0 : ℚ) ++ List.drop k a).length := by
        simp; omega
      simp [JntArray.write]; omega
    · rw [ih (by omega)]; rfl

/-- The command-writing loops: a loop that gives handle `i` the command `f i`. -/
theorem commandLoop_spec (f : Nat → Option ℚ) (hs : List JointHandle) (n : Nat)
    (hn : n ≤ hs.length) (hf : ∀ i, i < n → ∃ c, f i = some c) :
    ∃ hs1, forLoop n (fun i acc => acc[i]?.bind (fun h => (f i).bind (fun c =>
        some (acc.set i (h.setCommand c))))) hs = some hs1 ∧
      hs1.length = hs.length ∧
      (∀ i h c, i < n → hs[i]? = some h → f i = some c →
        hs1[i]? = some (h.setCommand c)) ∧
      (∀ i, n ≤ i → hs1[i]? = hs[i]?) := by
  induction n with
  | zero => exact ⟨hs, by simp [forLoop_zero]⟩
  | succ k ih =>
    obtain ⟨hs1, h1, hlen, hlt, hge⟩ := ih (by omega) (fun i hi => hf i (by omega))
    have hk : k < hs.length := by omega
    obtain ⟨c, hc⟩ := hf k (by omega)
    have hk1 : hs1[k]? = some hs[k] := by
      rw [hge k (le_refl k)]; exact List.getElem?_eq_getElem hk
    refine ⟨hs1.set k (hs[k].setCommand c), ?_, by simp [hlen], ?_, ?_⟩
    · rw [forLoop_succ, h1]; simp [hk1, hc]
    · intro i h c1 hi hh hfc
      by_cases hik : i = k
      · subst hik
        rw [List.getElem?_eq_getElem hk] at hh
        rw [hc] at hfc
        cases hh; cases hfc
        simp [List.getElem?_set, hlen, hk]
      · have := hlt i h c1 (by omega) hh hfc
        rw [List.getElem?_set_ne (by omega)]; exact this
    · intro i hi
      have := hge i (by omega)
      rw [List.getElem?_set_ne (by omega)]; exact this

theorem sense_length (hs : List JointHandle) (rs : List (ℚ × ℚ)) :
    (sense hs rs).length = hs.length := by
  induction hs generalizing rs with
  | nil => simp [sense]
  | cons h hs ih => cases rs <;> simp [sense, ih]

theorem readLoop_spec (hs : List JointHandle) (msr : JntArrayVel) (n : Nat)
    (hn : n ≤ hs.length) (hq : n ≤ msr.q.length) (hqd : n ≤ msr.qdot.length) :
    ∃ msr1, forLoop n (fun i (acc : JntArrayVel) => (do
        let h ← hs[i]?
        let q ← JntArray.write acc.q i h.position
        let qdot ← JntArray.write acc.qdot i h.velocity
        pure ⟨q, qdot⟩ : Option JntArrayVel)) msr = some msr1 ∧
      msr1.q.length = msr.q.length ∧ msr1.qdot.length = msr.qdot.length := by
  induction n with
  | zero => exact ⟨msr, by simp [forLoop_zero]⟩
  | succ k ih =>
    obtain ⟨m1, h1, hl1, hl2⟩ := ih (by omega) (by omega) (by omega)
    have hk : k < hs.length := by omega
    have hk1 : k < m1.q.length := by omega
    have hk2 : k < m1.qdot.length := by omega
    refine ⟨⟨m1.q.set k hs[k].position, m1.qdot.set k hs[k].velocity⟩, ?_, by simp [hl1],
      by simp [hl2]⟩
    rw [forLoop_succ, h1]
    simp [List.getElem?_eq_getElem hk, JntArray.write, hk1, hk2]

theorem readJoints_spec (self : CartesianVelocityControllerBase)
    (hq : self.joint_handles_.length ≤ self.joint_msr_.q.length)
    (hqd : self.joint_handles_.length ≤ self.joint_msr_.qdot.length) :
    ∃ msr1, readJoints self = some msr1 ∧
      msr1.q.length = self.joint_msr_.q.length ∧
      msr1.qdot.length = self.joint_msr_.qdot.length :=
  readLoop_spec self.joint_handles_ self.joint_msr_ self.joint_handles_.length (le_refl _) hq hqd

/-- The body of the command loop of `CartesianVelocityControllerSim`. -/
theorem sim_write_spec (self : CartesianVelocityControllerBase) (period : ℚ)
    (hq : self.joint_handles_.length ≤ self.joint_msr_.q.length)
    (hv : self.joint_handles_.length ≤ self.q_dt_cmd_.length) :
    ∃ hs1, CartesianVelocityControllerSim.writeVelocityCommands self period
        = some { self with joint_handles_ := hs1 } ∧
      hs1.length = self.joint_handles_.length ∧
      (∀ (i : Nat) (h : JointHandle) (q v : ℚ),
        self.joint_handles_[i]? = some h → self.joint_msr_.q[i]? = some q →
        self.q_dt_cmd_[i]? = some v →
        hs1[i]? = some (JointHandle.mk h.position h.velocity (q + v * period))) := by
  obtain ⟨hs1, h1, hlen, hlt, _⟩ := commandLoop_spec
    (fun i => (JntArray.read self.joint_msr_.q i).bind (fun q =>
      (JntArray.read self.q_dt_cmd_ i).bind (fun c => some (q + c * period))))
    self.joint_handles_ self.joint_handles_.length (le_refl _)
    (by
      intro i hi
      have h1 : i < self.joint_msr_.q.length := by omega
      have h2 : i < self.q_dt_cmd_.length := by omega
      simp [JntArray.read, List.getElem?_eq_getElem h1, List.getElem?_eq_getElem h2])
  refine ⟨hs1, ?_, hlen, ?_⟩
  · unfold CartesianVelocityControllerSim.writeVelocityCommands
    have hbody : (fun (i : Nat) (hs : List JointHandle) => (do
        let h ← hs[i]?
        let q ← JntArray.read self.joint_msr_.q i
        let c ← JntArray.read self.q_dt_cmd_ i
        pure (hs.set i (h.setCommand (q + c * period))) : Option (List JointHandle)))
        = (fun i acc => acc[i]?.bind (fun h =>
            ((JntArray.read self.joint_msr_.q i).bind (fun q =>
              (JntArray.read self.q_dt_cmd_ i).bind (fun c => some (q + c * period)))).bind
              (fun c => some (acc.set i (h.setCommand c))))) := by
      funext i hs
      cases hs[i]? <;> cases JntArray.read self.joint_msr_.q i <;>
        cases JntArray.read self.q_dt_cmd_ i <;> rfl
    rw [hbody, h1]; rfl
  · intro i h q v hh hq1 hv1
    have hi : i < self.joint_handles_.length := by
      by_contra hc
      rw [List.getElem?_eq_none (by omega)] at hh; cases hh
    have := hlt i h (q + v * period) hi hh (by simp [JntArray.read, hq1, hv1])
    simpa [JointHandle.setCommand] using this

/-- The hardware variant: the command loop and the trajectory. -/
theorem hw_write_spec (self : CartesianVelocityControllerBase) (period : ℚ)
    (hv : self.joint_handles_.length ≤ self.q_dt_cmd_.length)
    (h6 : 6 ≤ self.q_dt_cmd_.length) :
    ∃ hs1, CartesianVelocityController.writeVelocityCommands self period
        = some ({ self with joint_handles_ := hs1 },
            { frame_id := "base_link"
              joint_names := ["shoulder_pan_joint", "shoulder_lift_joint", "elbow_joint",
                "wrist_1_joint", "wrist_2_joint", "wrist_3_joint"]
              points := [{ positions := List.replicate 6 0
                           velocities := [self.q_dt_cmd_[0], self.q_dt_cmd_[1],
                             self.q_dt_cmd_[2], self.q_dt_cmd_[3], self.q_dt_cmd_[4],
                             self.q_dt_cmd_[5]]
                           accelerations := []
                           effort := []
                           time_from_start := 1 }] }) ∧
      hs1.length = self.joint_handles_.length ∧
      (∀ (i : Nat) (h : JointHandle) (v : ℚ),
        self.joint_handles_[i]? = some h → self.q_dt_cmd_[i]? = some v →
        hs1[i]? = some (JointHandle.mk h.position h.velocity v)) := by
  obtain ⟨hs1, h1, hlen, hlt, _⟩ := commandLoop_spec
    (fun i => JntArray.read self.q_dt_cmd_ i)
    self.joint_handles_ self.joint_handles_.length (le_refl _)
    (by
      intro i hi
      have h2 : i < self.q_dt_cmd_.length := by omega
      exact ⟨self.q_dt_cmd_[i], by simp [JntArray.read, List.getElem?_eq_getElem h2]⟩)
  have hbody : (fun (i : Nat) (hs : List JointHandle) => (do
      let h ← hs[i]?
      let c ← JntArray.read self.q_dt_cmd_ i
      pure (hs.set i (h.setCommand c)) : Option (List JointHandle)))
      = (fun i acc => acc[i]?.bind (fun h =>
          (JntArray.read self.q_dt_cmd_ i).bind
            (fun c => some (acc.set i (h.setCommand c))))) := by
    funext i hs
    cases hs[i]? <;> cases JntArray.read self.q_dt_cmd_ i <;> rfl
  refine ⟨hs1, ?_, hlen, ?_⟩
  · unfold CartesianVelocityController.writeVelocityCommands
    rw [hbody, h1]
    have e0 : JntArray.read self.q_dt_cmd_ 0 = some self.q_dt_cmd_[0] :=
      List.getElem?_eq_getElem (by omega)
    have e1 : JntArray.read self.q_dt_cmd_ 1 = some self.q_dt_cmd_[1] :=
      List.getElem?_eq_getElem (by omega)
    have e2 : JntArray.read self.q_dt_cmd_ 2 = some self.q_dt_cmd_[2] :=
      List.getElem?_eq_getElem (by omega)
    have e3 : JntArray.read self.q_dt_cmd_ 3 = some self.q_dt_cmd_[3] :=
      List.getElem?_eq_getElem (by omega)
    have e4 : JntArray.read self.q_dt_cmd_ 4 = some self.q_dt_cmd_[4] :=
      List.getElem?_eq_getElem (by omega)
    have e5 : JntArray.read self.q_dt_cmd_ 5 = some self.q_dt_cmd_[5] :=
      List.getElem?_eq_getElem (by omega)
    rw [e0, e1, e2, e3, e4, e5]
    rfl
  · intro i h v hh1 hv1
    have hi : i < self.joint_handles_.length := by
      by_contra hc
      rw [List.getElem?_eq_none (by omega)] at hh1; cases hh1
    have := hlt i h v hi hh1 (by simp only [JntArray.read]; exact hv1)
    simpa [JointHandle.setCommand] using this

theorem publishStep_frame (Duration : ℚ → ℚ) (self : CartesianVelocityControllerBase)
    (time : ℚ) (trylock : Bool) :
    (publishStep Duration self time trylock).1
      = { self with
          last_publish_time_ :=
            (publishStep Duration self time trylock).1.last_publish_time_ } := by
  unfold publishStep
  split
  · cases trylock <;> rfl
  · rfl

theorem publishStep_sized (Duration : ℚ → ℚ) (variant : Variant)
    (self : CartesianVelocityControllerBase)
    (time : ℚ) (trylock : Bool) (h : sized variant self) :
    sized variant (publishStep Duration self time trylock).1 := by
  rw [publishStep_frame]; exact h

/-- The controller `update` hands to `writeVelocityCommands`: the joints are
read and the inverse-velocity solver has run. -/
theorem update_eq (Duration : ℚ → ℚ) (sol : Solvers) (variant : Variant)
    (self : CartesianVelocityControllerBase) (time period : ℚ) (trylock : Bool)
    (msr : JntArrayVel) (post : CartesianVelocityControllerBase)
    (traj : Option JointTrajectory)
    (hm : readJoints self = some msr)
    (hw : writeVelocityCommands variant
      { self with
        joint_msr_ := msr
        q_dt_cmd_ := (List.range self.q_dt_cmd_.length).map
          (sol.ikVel self.kdl_chain_ msr.q self.x_dt_des_ self.q_dt_cmd_) } period
      = some (post, traj)) :
    CartesianVelocityControllerBase.update Duration sol variant self time period trylock
      = some ((publishStep Duration { post with
            x_dot_ := sol.fkVel post.kdl_chain_ post.joint_msr_ post.x_dot_
            x_ := sol.fkPos post.kdl_chain_ post.joint_msr_.q post.x_ } time trylock).1,
          ⟨traj, (publishStep Duration { post with
            x_dot_ := sol.fkVel post.kdl_chain_ post.joint_msr_ post.x_dot_
            x_ := sol.fkPos post.kdl_chain_ post.joint_msr_.q post.x_ } time trylock).2⟩) := by
  unfold CartesianVelocityControllerBase.update
  simp only [hm, Option.bind_eq_bind, Option.some_bind, bind, pure]
  rw [hw]
  rfl

/-- The virtual call returns on a controller with consistent sizes, and changes
the joint handles only. -/
theorem writeVelocityCommands_spec (variant : Variant)
    (self : CartesianVelocityControllerBase) (period : ℚ) (hs : sized variant self) :
    ∃ hs1 traj, writeVelocityCommands variant self period
        = some ({ self with joint_handles_ := hs1 }, traj) ∧
      hs1.length = self.joint_handles_.length := by
  obtain ⟨h1, _, h3, h4⟩ := hs
  cases variant with
  | CartesianVelocityController =>
    obtain ⟨hs1, hw, hlen, _⟩ := hw_write_spec self period h3 (h4 rfl)
    exact ⟨hs1, _, by unfold writeVelocityCommands; rw [hw]; rfl, hlen⟩
  | CartesianVelocityControllerSim =>
    obtain ⟨hs1, hw, hlen, _⟩ := sim_write_spec self period h1 h3
    exact ⟨hs1, _, by unfold writeVelocityCommands; rw [hw]; rfl, hlen⟩

/-- A call of `update` on a controller with consistent sizes returns, and ends
with the publish step applied to a controller that has the throttle state and
the sizes of the one `update` was called on. -/
theorem update_spec (Duration : ℚ → ℚ) (sol : Solvers) (variant : Variant)
    (self : CartesianVelocityControllerBase) (time period : ℚ) (trylock : Bool)
    (hs : sized variant self) :
    ∃ mid traj,
      CartesianVelocityControllerBase.update Duration sol variant self time period trylock
        = some ((publishStep Duration mid time trylock).1,
            ⟨traj, (publishStep Duration mid time trylock).2⟩) ∧
      mid.last_publish_time_ = self.last_publish_time_ ∧
      mid.publish_rate_ = self.publish_rate_ ∧
      sized variant mid := by
  obtain ⟨h1, h2, h3, h4⟩ := hs
  obtain ⟨msr, hm, hmq, hmqd⟩ := readJoints_spec self h1 h2
  have hpre : sized variant { self with
      joint_msr_ := msr
      q_dt_cmd_ := (List.range self.q_dt_cmd_.length).map
        (sol.ikVel self.kdl_chain_ msr.q self.x_dt_des_ self.q_dt_cmd_) } := by
    refine ⟨?_, ?_, ?_, ?_⟩
    · show self.joint_handles_.length ≤ msr.q.length
      omega
    · show self.joint_handles_.length ≤ msr.qdot.length
      omega
    · simpa using h3
    · simpa using h4
  obtain ⟨hs1, traj, hw, hlen⟩ := writeVelocityCommands_spec variant _ period hpre
  refine ⟨_, traj, update_eq Duration sol variant self time period trylock msr _ traj hm hw,
    rfl, rfl, ?_⟩
  obtain ⟨p1, p2, p3, p4⟩ := hpre
  exact ⟨by rw [← hlen] at p1; exact p1, by rw [← hlen] at p2; exact p2,
    by rw [← hlen] at p3; exact p3, p4⟩

theorem publishStep_rate (Duration : ℚ → ℚ) (self : CartesianVelocityControllerBase)
    (time : ℚ) (trylock : Bool) :
    (publishStep Duration self time trylock).1.publish_rate_ = self.publish_rate_ := by
  rw [publishStep_frame]

theorem publishStep_isSome (Duration : ℚ → ℚ) (self : CartesianVelocityControllerBase)
    (time : ℚ)
    (trylock : Bool) :
    (publishStep Duration self time trylock).2.isSome = true ↔
      (0 < self.publish_rate_ ∧
        self.last_publish_time_ + Duration (1 / self.publish_rate_) < time) ∧ trylock = true := by
  unfold publishStep
  by_cases h : 0 < self.publish_rate_ ∧ self.last_publish_time_ + Duration (1 / self.publish_rate_) < time
  · rw [if_pos h]
    cases trylock
    · exact ⟨fun hx => (by cases hx), fun hx => (by cases hx.2)⟩
    · exact ⟨fun _ => ⟨h, rfl⟩, fun _ => rfl⟩
  · rw [if_neg h]
    exact ⟨fun hx => (by cases hx), fun hx => absurd hx.1 h⟩

theorem publishStep_last (Duration : ℚ → ℚ) (self : CartesianVelocityControllerBase)
    (time : ℚ)
    (trylock : Bool) :
    (publishStep Duration self time trylock).1.last_publish_time_
      = if (publishStep Duration self time trylock).2.isSome
        then self.last_publish_time_ + Duration (1 / self.publish_rate_)
        else self.last_publish_time_ := by
  unfold publishStep
  by_cases h : 0 < self.publish_rate_ ∧ self.last_publish_time_ + Duration (1 / self.publish_rate_) < time
  · rw [if_pos h]
    cases trylock <;> rfl
  · rw [if_neg h]
    rfl

theorem cycle_spec (Duration : ℚ → ℚ) (sol : Solvers) (variant : Variant)
    (self : CartesianVelocityControllerBase) (c : Cycle) (hs : sized variant self) :
    ∃ mid traj, cycle Duration sol variant self c
        = some ((publishStep Duration mid c.time c.trylock).1,
            ⟨traj, (publishStep Duration mid c.time c.trylock).2⟩) ∧
      mid.last_publish_time_ = self.last_publish_time_ ∧
      mid.publish_rate_ = self.publish_rate_ ∧
      sized variant mid := by
  unfold cycle
  cases hc : c.command with
  | none =>
    exact update_spec Duration sol variant
      { self with joint_handles_ := sense self.joint_handles_ c.readings } c.time c.period
      c.trylock (by unfold sized at hs ⊢; simpa [sense_length] using hs)
  | some msg =>
    exact update_spec Duration sol variant
      { self.command_cart_vel msg with
        joint_handles_ := sense (self.command_cart_vel msg).joint_handles_ c.readings }
      c.time c.period c.trylock
      (by unfold sized at hs ⊢
          simpa [sense_length, CartesianVelocityControllerBase.command_cart_vel] using hs)

theorem run_spec (Duration : ℚ → ℚ) (sol : Solvers) (variant : Variant)
    (cycles : List Cycle) :
    ∀ (self : CartesianVelocityControllerBase) (tcur : ℚ), sized variant self →
      self.last_publish_time_ ≤ tcur →
      List.Chain (fun a b => a ≤ b) tcur (cycles.map Cycle.time) →
      ∃ sN m, run Duration sol variant self cycles = some (sN, m) ∧
        sN.publish_rate_ = self.publish_rate_ ∧
        sN.last_publish_time_ ≤ lastTime tcur cycles ∧
        sN.last_publish_time_
          = self.last_publish_time_ + (m : ℚ) * Duration (1 / self.publish_rate_) ∧
        (self.publish_rate_ ≤ 0 → m = 0) := by
  induction cycles with
  | nil =>
    intro self tcur _ hle _
    exact ⟨self, 0, rfl, rfl, hle, by simp, fun _ => rfl⟩
  | cons c cs ih =>
    intro self tcur hs hle hch
    simp only [List.map_cons, List.chain_cons] at hch
    obtain ⟨hct, hch⟩ := hch
    obtain ⟨mid, traj, hcy, hl, hr, hsz⟩ := cycle_spec Duration sol variant self c hs
    have hlast := publishStep_last Duration mid c.time c.trylock
    have hsome := publishStep_isSome Duration mid c.time c.trylock
    have hle1 : (publishStep Duration mid c.time c.trylock).1.last_publish_time_ ≤ c.time := by
      rw [hlast]
      by_cases hp : (publishStep Duration mid c.time c.trylock).2.isSome = true
      · rw [if_pos hp]; exact le_of_lt (hsome.mp hp).1.2
      · rw [if_neg hp, hl]; exact le_trans hle hct
    obtain ⟨sN, m, hrun, hrN, hlN, hlastN, hm0⟩ :=
      ih _ c.time (publishStep_sized Duration variant mid c.time c.trylock hsz) hle1 hch
    rw [publishStep_rate, hr] at hrN hlastN hm0
    refine ⟨sN, m + (if (publishStep Duration mid c.time c.trylock).2.isSome then 1 else 0), ?_, hrN,
      hlN, ?_, ?_⟩
    · simp only [run, hcy, hrun]
    · rw [hlastN, hlast, hl, hr]
      by_cases hp : (publishStep Duration mid c.time c.trylock).2.isSome = true
      · simp only [hp, if_true]; push_cast; ring
      · simp only [hp]; push_cast; simp
    · intro hR
      have hp : ¬ (publishStep Duration mid c.time c.trylock).2.isSome = true := by
        intro hp
        have := (hsome.mp hp).1.1
        rw [hr] at this
        exact absurd this (not_lt.mpr hR)
      simp [hp, hm0 hR]

/-! ## The limits loop -/

theorem resize_length (a : JntArray) (n : Nat) : (JntArray.resize a n).length = n := by
  simp [JntArray.resize]; omega

theorem linkAt_none_of_le (model : Model) (tip_name : String) (i k : Nat)
    (h : linkAt model tip_name i = none) (hk : i ≤ k) : linkAt model tip_name k = none := by
  induction k with
  | zero =>
    have : i = 0 := by omega
    subst this; exact h
  | succ n ih =>
    by_cases hin : i = n + 1
    · subst hin; exact h
    · simp [linkAt, ih (by omega)]

theorem writeLimits_eq (jl : limits_) (index : Nat) (j : Joint)
    (h1 : index < jl.min.length) (h2 : index < jl.max.length) (h3 : index < jl.center.length) :
    writeLimits jl index j = some ⟨jl.min.set index (limitsEntry j).1,
      jl.max.set index (limitsEntry j).2.1, jl.center.set index (limitsEntry j).2.2⟩ := by
  unfold writeLimits limitsEntry
  cases hj : j.limits with
  | none => simp [JntArray.write, h1, h2, h3]
  | some lim => simp [JntArray.write, JntArray.read, h1, h2, h3]

theorem limitsLoop_spec (model : Model) (tip_name : String) (N : Nat)
    (hsafe : ∀ i, i < N → (linkAt model tip_name i).all (stepDefined model) = true) :
    ∀ (fuel i : Nat) (jl : limits_), fuel + i = N →
      jl.min.length = N → jl.max.length = N → jl.center.length = N →
      ∃ jl1, limitsLoop model N fuel i (linkAt model tip_name i) jl = some jl1 ∧
        jl1.min.length = N ∧ jl1.max.length = N ∧ jl1.center.length = N ∧
        (∀ k, N - i ≤ k → jl1.min[k]? = jl.min[k]? ∧ jl1.max[k]? = jl.max[k]? ∧
          jl1.center[k]? = jl.center[k]?) ∧
        (∀ k j, i ≤ k → k < N → visitedJoint model tip_name k = some j →
          jl1.min[N - 1 - k]? = some (limitsEntry j).1 ∧
          jl1.max[N - 1 - k]? = some (limitsEntry j).2.1 ∧
          jl1.center[N - 1 - k]? = some (limitsEntry j).2.2) := by
  intro fuel
  induction fuel with
  | zero =>
    intro i jl hi h1 h2 h3
    refine ⟨jl, rfl, h1, h2, h3, fun k _ => ⟨rfl, rfl, rfl⟩, ?_⟩
    intro k j hk hkN; omega
  | succ fuel ih =>
    intro i jl hi h1 h2 h3
    have hiN : i < N := by omega
    cases hl : linkAt model tip_name i with
    | none =>
      refine ⟨jl, by simp [limitsLoop, hiN], h1, h2, h3, fun k _ => ⟨rfl, rfl, rfl⟩, ?_⟩
      intro k j hk _ hv
      simp [visitedJoint, linkAt_none_of_le model tip_name i k hl hk] at hv
    | some link =>
      have hs := hsafe i hiN
      rw [hl] at hs
      simp only [Option.all_some, stepDefined, Bool.and_eq_true] at hs
      obtain ⟨hj, hp⟩ := hs
      obtain ⟨pj, hpj⟩ : ∃ pj, link.parent_joint = some pj := by
        cases h : link.parent_joint with
        | none => rw [h] at hj; simp at hj
        | some pj => exact ⟨pj, rfl⟩
      obtain ⟨joint_, hjoint⟩ : ∃ j, model.getJoint pj.name = some j := by
        rw [hpj] at hj
        exact Option.isSome_iff_exists.mp hj
      obtain ⟨parent, hparent⟩ := Option.isSome_iff_exists.mp hp
      have hidx : N - i - 1 < N := by omega
      have hw := writeLimits_eq jl (N - i - 1) joint_ (by omega) (by omega) (by omega)
      have hnext : linkAt model tip_name (i + 1) = model.getLink parent := by
        simp [linkAt, hl, hparent]
      obtain ⟨jl2, hrun, g1, g2, g3, hkeep, hnew⟩ := ih (i + 1)
        ⟨jl.min.set (N - i - 1) (limitsEntry joint_).1,
          jl.max.set (N - i - 1) (limitsEntry joint_).2.1,
          jl.center.set (N - i - 1) (limitsEntry joint_).2.2⟩
        (by omega) (by simp [h1]) (by simp [h2]) (by simp [h3])
      have hvis : visitedJoint model tip_name i = some joint_ := by
        simp [visitedJoint, hl, hpj, hjoint]
      refine ⟨jl2, ?_, g1, g2, g3, ?_, ?_⟩
      · simp only [limitsLoop, hiN, if_true, hpj, hjoint, hw, hparent]
        rw [← hnext]; exact hrun
      · intro k hk
        obtain ⟨a, b, c⟩ := hkeep k (by omega)
        simp only at a b c
        rw [a, b, c]
        have hne : N - i - 1 ≠ k := by omega
        exact ⟨List.getElem?_set_ne hne, List.getElem?_set_ne hne, List.getElem?_set_ne hne⟩
      · intro k j hk hkN hv
        by_cases hki : k = i
        · subst hki
          rw [hvis] at hv
          cases hv
          obtain ⟨a, b, c⟩ := hkeep (N - 1 - k) (by omega)
          simp only at a b c
          rw [a, b, c]
          have e : N - 1 - k = N - k - 1 := by omega
          rw [e]
          refine ⟨?_, ?_, ?_⟩ <;> simp [List.getElem?_set, h1, h2, h3, hidx]
        · exact hnew k j (by omega) hkN hv

/-- A cycle in which the message is due and the publish channel is free
publishes: it adds one to the count of the rest of the run and advances the
last-publish time by the period. -/
theorem run_cons_publish (Duration : ℚ → ℚ) (sol : Solvers) (variant : Variant)
    (self : CartesianVelocityControllerBase) (c : Cycle) (cs : List Cycle) (R L d : ℚ)
    (hs : sized variant self) (hrate : self.publish_rate_ = R)
    (hlast : self.last_publish_time_ = L) (hd : Duration (1 / R) = d)
    (hR : 0 < R) (hdue : L + d < c.time) (hlock : c.trylock = true) :
    ∃ s1, sized variant s1 ∧ s1.publish_rate_ = R ∧ s1.last_publish_time_ = L + d ∧
      ∀ sN m, run Duration sol variant s1 cs = some (sN, m) →
        run Duration sol variant self (c :: cs) = some (sN, m + 1) := by
  obtain ⟨mid, traj, hcy, hl, hr, hsz⟩ := cycle_spec Duration sol variant self c hs
  have hp : (publishStep Duration mid c.time c.trylock).2.isSome = true := by
    rw [publishStep_isSome, hl, hr, hrate, hlast, hd]
    exact ⟨⟨hR, hdue⟩, hlock⟩
  refine ⟨(publishStep Duration mid c.time c.trylock).1,
    publishStep_sized Duration variant mid c.time c.trylock hsz, ?_, ?_, ?_⟩
  · rw [publishStep_rate, hr, hrate]
  · rw [publishStep_last, if_pos hp, hl, hr, hrate, hlast, hd]
  · intro sN m hrun
    simp only [run, hcy, hrun, hp, if_true]

/-! ## The claims -/

/-- Claim C1, as amended: with a positive publish rate, consistent sizes and the
publish channel free, `update` returns and publishes a feedback message if and
only if `last_publish_time_ + Duration (1 / publish_rate_) < time`, a strict
comparison; `Duration (1 / publish_rate_)` is the period as `ros::Duration`
holds it, `1 / publish_rate_` itself for an exact conversion. -/
theorem update_publishes_iff_past_due (Duration : ℚ → ℚ) (sol : Solvers) (variant : Variant)
    (self : CartesianVelocityControllerBase) (time period : ℚ)
    (hs : sized variant self) (hR : 0 < self.publish_rate_) :
    ∃ self1 out,
      CartesianVelocityControllerBase.update Duration sol variant self time period true
        = some (self1, out) ∧
      (out.ee_state.isSome = true ↔
        self.last_publish_time_ + Duration (1 / self.publish_rate_) < time) := by
  obtain ⟨mid, traj, hu, hl, hr, _⟩ :=
    update_spec Duration sol variant self time period true hs
  refine ⟨_, _, hu, ?_⟩
  show (publishStep Duration mid time true).2.isSome = true ↔ _
  rw [publishStep_isSome, hl, hr]
  simp [hR]

/-- Claim C1, as amended, on the two-joint controller at time 2. -/
theorem update_publishes_iff_past_due_witness :
    sized Variant.CartesianVelocityControllerSim twoJointController ∧
    0 < twoJointController.publish_rate_ ∧
    ∃ self1 out,
      CartesianVelocityControllerBase.update nanosecondDuration idleSolvers
        Variant.CartesianVelocityControllerSim twoJointController 2 (1 / 125) true
        = some (self1, out) ∧
      (out.ee_state.isSome = true ↔
        twoJointController.last_publish_time_
          + nanosecondDuration (1 / twoJointController.publish_rate_) < 2) :=
  ⟨by decide, by decide,
    update_publishes_iff_past_due nanosecondDuration idleSolvers
      Variant.CartesianVelocityControllerSim twoJointController 2 (1 / 125)
      (by decide) (by decide)⟩

/-- Claim C1 fails as stated: with `publish_rate_ = 1` and `last_publish_time_ = 0`
a call of `update` at `time = 1`, which is exactly
`last_publish_time_ + 1 / publish_rate_` (one second is a whole number of
nanoseconds, so `ros::Duration` holds it exactly), with the publish channel
free, publishes nothing. -/
theorem update_skips_at_exact_due_time :
    0 < twoJointController.publish_rate_ ∧
    twoJointController.last_publish_time_ + 1 / twoJointController.publish_rate_ ≤ 1 ∧
    nanosecondDuration (1 / twoJointController.publish_rate_)
      = 1 / twoJointController.publish_rate_ ∧
    ∃ self1 out,
      CartesianVelocityControllerBase.update nanosecondDuration idleSolvers
        Variant.CartesianVelocityControllerSim twoJointController 1 (1 / 125) true
        = some (self1, out) ∧
      out.ee_state = none := by
  have hd : nanosecondDuration (1 / twoJointController.publish_rate_) = 1 := by
    show nanosecondDuration (1 / 1) = 1
    unfold nanosecondDuration
    have : ⌊(1 / 1 : ℚ) * 1000000000 + 1 / 2⌋ = 1000000000 := by
      rw [Int.floor_eq_iff]; norm_num
    rw [this]; norm_num
  refine ⟨by decide, by norm_num [twoJointController], ?_, ?_⟩
  · rw [hd]; norm_num [twoJointController]
  obtain ⟨mid, traj, hu, hl, hr, _⟩ := update_spec nanosecondDuration idleSolvers
    Variant.CartesianVelocityControllerSim twoJointController 1 (1 / 125) true (by decide)
  refine ⟨_, _, hu, ?_⟩
  show (publishStep nanosecondDuration mid 1 true).2 = none
  have h : ¬ ((publishStep nanosecondDuration mid 1 true).2.isSome = true) := by
    rw [publishStep_isSome, hl, hr, hd]
    norm_num [twoJointController]
  simpa using h

/-- Claim C3 fails on the code.  The function `init` on the description `A -j1-> B -j2-> C`, root `A`,
tip `C`, where `j2` is fixed: the chain has the single actuated joint `j1`,
whose declared limits are `[-1, 1]`, yet the limits arrays hold `(0, 0, 0)`,
the entry of the fixed joint `j2`; the limits of `j1` are never read. -/
theorem init_limits_of_fixed_tip_joint :
    ∃ b, KinematicChainControllerBase.init (parsersFor fixedTipModel fixedTipTree fixedTipChain)
        (nodeHandleFor "A" "C") KinematicChainControllerBase.fresh = some (true, b) ∧
      b.kdl_chain_.getNrOfJoints = 1 ∧
      b.kdl_chain_.jointNames = ["j1"] ∧
      (fixedTipModel.getJoint "j1").bind (fun j => j.limits) = some ⟨-1, 1⟩ ∧
      b.joint_limits_ = ⟨[0], [0], [0]⟩ :=
  ⟨⟨fixedTipChain, ⟨[], []⟩, ⟨[0], [0], [0]⟩⟩, by decide, by decide, by decide, by decide, rfl⟩

/-- Claim C4: the limits loop, when none of its first `N` iterations dereferences a
null pointer, returns arrays of length `N` in which slot `N - 1 - i` holds the
values of the joint read in iteration `i`: `(lo, hi, (lo + hi) / 2)` for declared
limits `[lo, hi]`, `(0, 0, 0)` for a joint that declares none.  These are the
final arrays, so no later iteration has overwritten the slot. -/
theorem limits_walk_fills_reverse_slots (model : Model) (tip_name : String) (N : Nat)
    (jl0 : limits_)
    (hsafe : ∀ i, i < N → (linkAt model tip_name i).all (stepDefined model) = true) :
    ∃ jl, parseJointLimits model tip_name N jl0 = some jl ∧
      jl.min.length = N ∧ jl.max.length = N ∧ jl.center.length = N ∧
      ∀ (i : Nat) (j : Joint), i < N → visitedJoint model tip_name i = some j →
        (∀ lo hi : ℚ, j.limits = some ⟨lo, hi⟩ →
          jl.min[N - 1 - i]? = some lo ∧ jl.max[N - 1 - i]? = some hi ∧
          jl.center[N - 1 - i]? = some ((lo + hi) / 2)) ∧
        (j.limits = none →
          jl.min[N - 1 - i]? = some 0 ∧ jl.max[N - 1 - i]? = some 0 ∧
          jl.center[N - 1 - i]? = some 0) := by
  obtain ⟨jl, hrun, g1, g2, g3, _, hnew⟩ := limitsLoop_spec model tip_name N hsafe N 0
    ⟨JntArray.resize jl0.min N, JntArray.resize jl0.max N, JntArray.resize jl0.center N⟩
    (by omega) (resize_length _ _) (resize_length _ _) (resize_length _ _)
  refine ⟨jl, hrun, g1, g2, g3, ?_⟩
  intro i j hi hv
  have h := hnew i j (Nat.zero_le _) hi hv
  refine ⟨?_, ?_⟩
  · intro lo hi1 hlim
    simpa [limitsEntry, hlim] using h
  · intro hlim
    simpa [limitsEntry, hlim] using h

/-- Claim C4 on the description `A -j1-> B -j2-> C` with tip `C` and two slots. -/
theorem limits_walk_fills_reverse_slots_witness :
    (∀ i, i < 2 → (linkAt fixedTipModel "C" i).all (stepDefined fixedTipModel) = true) ∧
    ∃ jl, parseJointLimits fixedTipModel "C" 2 ⟨[], [], []⟩ = some jl ∧
      jl.min.length = 2 ∧ jl.max.length = 2 ∧ jl.center.length = 2 ∧
      ∀ (i : Nat) (j : Joint), i < 2 → visitedJoint fixedTipModel "C" i = some j →
        (∀ lo hi : ℚ, j.limits = some ⟨lo, hi⟩ →
          jl.min[2 - 1 - i]? = some lo ∧ jl.max[2 - 1 - i]? = some hi ∧
          jl.center[2 - 1 - i]? = some ((lo + hi) / 2)) ∧
        (j.limits = none →
          jl.min[2 - 1 - i]? = some 0 ∧ jl.max[2 - 1 - i]? = some 0 ∧
          jl.center[2 - 1 - i]? = some 0) :=
  ⟨by decide, limits_walk_fills_reverse_slots fixedTipModel "C" 2 ⟨[], [], []⟩ (by decide)⟩

/-- Claim C5 fails on the code.  On a parameter server that holds `publish_rate` and
nothing else, `KinematicChainControllerBase::init` returns false (no robot
description), and `CartesianVelocityControllerBase::init`, which drops that
flag, returns true. -/
theorem init_succeeds_after_base_failure :
    (KinematicChainControllerBase.init (parsersFor fixedTipModel fixedTipTree fixedTipChain)
      nodeHandleRateOnly KinematicChainControllerBase.fresh).map Prod.fst = some false ∧
    (CartesianVelocityControllerBase.init (parsersFor fixedTipModel fixedTipTree fixedTipChain)
      nodeHandleRateOnly CartesianVelocityControllerBase.fresh).map Prod.fst = some true :=
  ⟨by decide, by decide⟩

/-- Claim C6, as amended: on a controller with at most as many joint handles as
entries of `q_dt_cmd_`, `starting` returns; it sets the entries of `q_dt_cmd_`
below the number of joint handles to zero and keeps the others, so every entry
is zero when there are as many joint handles as entries; the six components of
the desired twist are zero and the last-publish time is `time`. -/
theorem starting_resets_handled_joints (self : CartesianVelocityControllerBase) (time : ℚ)
    (hlen : self.joint_handles_.length ≤ self.q_dt_cmd_.length) :
    ∃ self1, CartesianVelocityControllerBase.starting self time = some self1 ∧
      self1.q_dt_cmd_ = List.replicate self.joint_handles_.length 0
        ++ self.q_dt_cmd_.drop self.joint_handles_.length ∧
      (self.joint_handles_.length = self.q_dt_cmd_.length → ∀ x ∈ self1.q_dt_cmd_, x = 0) ∧
      self1.x_dt_des_.components = [0, 0, 0, 0, 0, 0] ∧
      self1.last_publish_time_ = time := by
  refine ⟨{ self with
    q_dt_cmd_ := List.replicate self.joint_handles_.length 0
      ++ self.q_dt_cmd_.drop self.joint_handles_.length
    x_dt_des_ := Twist.Zero
    last_publish_time_ := time }, ?_, rfl, ?_, rfl, rfl⟩
  · unfold CartesianVelocityControllerBase.starting
    rw [zeroLoop_eq _ _ hlen]
  · intro heq x hx
    simp only [heq, List.drop_length, List.append_nil] at hx
    exact List.eq_of_mem_replicate hx

/-- Claim C6, as amended, on the two-joint controller. -/
theorem starting_resets_handled_joints_witness :
    twoJointController.joint_handles_.length ≤ twoJointController.q_dt_cmd_.length ∧
    ∃ self1, CartesianVelocityControllerBase.starting twoJointController 7 = some self1 ∧
      self1.q_dt_cmd_ = List.replicate twoJointController.joint_handles_.length 0
        ++ twoJointController.q_dt_cmd_.drop twoJointController.joint_handles_.length ∧
      (twoJointController.joint_handles_.length = twoJointController.q_dt_cmd_.length →
        ∀ x ∈ self1.q_dt_cmd_, x = 0) ∧
      self1.x_dt_des_.components = [0, 0, 0, 0, 0, 0] ∧
      self1.last_publish_time_ = 7 :=
  ⟨by decide, starting_resets_handled_joints twoJointController 7 (by decide)⟩

/-- Claim C6 fails as stated: on a controller with one joint handle and the
command `[3, 4]`, `starting` leaves the command `[0, 4]`. -/
theorem starting_leaves_unhandled_joint :
    ∃ self1, CartesianVelocityControllerBase.starting oneHandleController 7 = some self1 ∧
      self1.q_dt_cmd_ = [0, 4] ∧ ¬ (∀ x ∈ self1.q_dt_cmd_, x = 0) := by
  refine ⟨{ oneHandleController with
    q_dt_cmd_ := [0, 4], x_dt_des_ := Twist.Zero, last_publish_time_ := 7 }, ?_, rfl, ?_⟩
  · decide
  · decide

/-- Claim C7: with a measured position and a commanded velocity for every joint
handle, `CartesianVelocityControllerSim::writeVelocityCommands` returns and
leaves in the command slot of joint handle `i` the value `q(i) + v(i) * period`;
the position and velocity the handle reads, the number of handles and every
other member of the controller are unchanged. -/
theorem sim_writeVelocityCommands_integrates (self : CartesianVelocityControllerBase)
    (period : ℚ)
    (hq : self.joint_handles_.length ≤ self.joint_msr_.q.length)
    (hv : self.joint_handles_.length ≤ self.q_dt_cmd_.length) :
    ∃ self1, CartesianVelocityControllerSim.writeVelocityCommands self period = some self1 ∧
      self1.joint_handles_.length = self.joint_handles_.length ∧
      (∀ (i : Nat) (h : JointHandle) (q v : ℚ),
        self.joint_handles_[i]? = some h → self.joint_msr_.q[i]? = some q →
        self.q_dt_cmd_[i]? = some v →
        self1.joint_handles_[i]?
          = some (JointHandle.mk h.position h.velocity (q + v * period))) ∧
      self1 = { self with joint_handles_ := self1.joint_handles_ } := by
  obtain ⟨hs1, hw, hlen, hall⟩ := sim_write_spec self period hq hv
  exact ⟨_, hw, hlen, hall, rfl⟩

/-- Claim C7 on the two-joint controller. -/
theorem sim_writeVelocityCommands_integrates_witness :
    twoJointController.joint_handles_.length ≤ twoJointController.joint_msr_.q.length ∧
    twoJointController.joint_handles_.length ≤ twoJointController.q_dt_cmd_.length ∧
    ∃ self1, CartesianVelocityControllerSim.writeVelocityCommands twoJointController (1 / 125)
        = some self1 ∧
      self1.joint_handles_.length = twoJointController.joint_handles_.length ∧
      (∀ (i : Nat) (h : JointHandle) (q v : ℚ),
        twoJointController.joint_handles_[i]? = some h →
        twoJointController.joint_msr_.q[i]? = some q →
        twoJointController.q_dt_cmd_[i]? = some v →
        self1.joint_handles_[i]?
          = some (JointHandle.mk h.position h.velocity (q + v * (1 / 125)))) ∧
      self1 = { twoJointController with joint_handles_ := self1.joint_handles_ } :=
  ⟨by decide, by decide,
    sim_writeVelocityCommands_integrates twoJointController (1 / 125) (by decide) (by decide)⟩

/-- Claim C8: with the six-entry command `[v0, .., v5]` and at most six joint
handles, `CartesianVelocityController::writeVelocityCommands` returns and
publishes a trajectory with frame id `base_link`, the six joint names in the
fixed order, and exactly one point whose velocities are `[v0, .., v5]` and whose
`time_from_start` is 1; the command slot of joint handle `i` holds entry `i`
of the command, and nothing else in the controller changes. -/
theorem hw_writeVelocityCommands_trajectory (self : CartesianVelocityControllerBase)
    (period v0 v1 v2 v3 v4 v5 : ℚ)
    (hv : self.q_dt_cmd_ = [v0, v1, v2, v3, v4, v5])
    (hh : self.joint_handles_.length ≤ 6) :
    ∃ self1 traj,
      CartesianVelocityController.writeVelocityCommands self period = some (self1, traj) ∧
      traj.frame_id = "base_link" ∧
      traj.joint_names = ["shoulder_pan_joint", "shoulder_lift_joint", "elbow_joint",
        "wrist_1_joint", "wrist_2_joint", "wrist_3_joint"] ∧
      traj.points.length = 1 ∧
      traj.points.map (fun p => p.velocities) = [[v0, v1, v2, v3, v4, v5]] ∧
      traj.points.map (fun p => p.time_from_start) = [1] ∧
      self1.joint_handles_.length = self.joint_handles_.length ∧
      (∀ (i : Nat) (h : JointHandle) (v : ℚ),
        self.joint_handles_[i]? = some h → [v0, v1, v2, v3, v4, v5][i]? = some v →
        self1.joint_handles_[i]? = some (JointHandle.mk h.position h.velocity v)) ∧
      self1 = { self with joint_handles_ := self1.joint_handles_ } := by
  obtain ⟨hs1, h1, hlen, hlt, _⟩ := commandLoop_spec
    (fun i => JntArray.read self.q_dt_cmd_ i)
    self.joint_handles_ self.joint_handles_.length (le_refl _)
    (by
      intro i hi
      have h2 : i < self.q_dt_cmd_.length := by rw [hv]; simp; omega
      exact ⟨self.q_dt_cmd_[i], by simp [JntArray.read, List.getElem?_eq_getElem h2]⟩)
  have hbody : (fun (i : Nat) (hs : List JointHandle) => (do
      let h ← hs[i]?
      let c ← JntArray.read self.q_dt_cmd_ i
      pure (hs.set i (h.setCommand c)) : Option (List JointHandle)))
      = (fun i acc => acc[i]?.bind (fun h =>
          (JntArray.read self.q_dt_cmd_ i).bind
            (fun c => some (acc.set i (h.setCommand c))))) := by
    funext i hs
    cases hs[i]? <;> cases JntArray.read self.q_dt_cmd_ i <;> rfl
  refine ⟨{ self with joint_handles_ := hs1 },
    { frame_id := "base_link"
      joint_names := ["shoulder_pan_joint", "shoulder_lift_joint", "elbow_joint",
        "wrist_1_joint", "wrist_2_joint", "wrist_3_joint"]
      points := [{ positions := List.replicate 6 0
                   velocities := [v0, v1, v2, v3, v4, v5]
                   accelerations := []
                   effort := []
                   time_from_start := 1 }] }, ?_, ?_⟩
  · unfold CartesianVelocityController.writeVelocityCommands
    rw [hbody, h1]
    simp only [hv, JntArray.read]
    rfl
  · refine ⟨rfl, rfl, rfl, rfl, rfl, hlen, ?_, rfl⟩
    intro i h v hh1 hv1
    have hi : i < self.joint_handles_.length := by
      by_contra hc
      rw [List.getElem?_eq_none (by omega)] at hh1; cases hh1
    have := hlt i h v hi hh1 (by simp only [JntArray.read, hv]; exact hv1)
    simpa [JointHandle.setCommand] using this

/-- Claim C8 on the six-joint controller. -/
theorem hw_writeVelocityCommands_trajectory_witness :
    sixJointController.q_dt_cmd_ = [1, 2, 3, 4, 5, 6] ∧
    sixJointController.joint_handles_.length ≤ 6 ∧
    ∃ self1 traj,
      CartesianVelocityController.writeVelocityCommands sixJointController (1 / 125)
        = some (self1, traj) ∧
      traj.frame_id = "base_link" ∧
      traj.joint_names = ["shoulder_pan_joint", "shoulder_lift_joint", "elbow_joint",
        "wrist_1_joint", "wrist_2_joint", "wrist_3_joint"] ∧
      traj.points.length = 1 ∧
      traj.points.map (fun p => p.velocities) = [[1, 2, 3, 4, 5, 6]] ∧
      traj.points.map (fun p => p.time_from_start) = [1] ∧
      self1.joint_handles_.length = sixJointController.joint_handles_.length ∧
      (∀ (i : Nat) (h : JointHandle) (v : ℚ),
        sixJointController.joint_handles_[i]? = some h →
        ([1, 2, 3, 4, 5, 6] : List ℚ)[i]? = some v →
        self1.joint_handles_[i]? = some (JointHandle.mk h.position h.velocity v)) ∧
      self1 = { sixJointController with joint_handles_ := self1.joint_handles_ } :=
  ⟨rfl, by decide,
    hw_writeVelocityCommands_trajectory sixJointController (1 / 125) 1 2 3 4 5 6 rfl
      (by decide)⟩

/-- Claim C9 fails on the code.  In the description with the branches `A -j1-> B` and
`A -j2-> C`, root name `B` and tip name `C`, the chain has two joints and the tip
has one joint above it.  The second iteration of the limits loop stands on the
root link `A`, which is not null, and reads the name of its parent joint, a
null pointer: the loop, and `init` with it, runs into undefined behaviour. -/
theorem limits_walk_reads_parent_of_root_link :
    forkChain.getNrOfJoints = 2 ∧
    linkAt forkModel "C" 1 = some ⟨"A", none, none⟩ ∧
    parseJointLimits forkModel "C" 2 ⟨[], [], []⟩ = none ∧
    KinematicChainControllerBase.init (parsersFor forkModel forkTree forkChain)
      (nodeHandleFor "B" "C") KinematicChainControllerBase.fresh = none :=
  ⟨by decide, by decide, by decide, by decide⟩

/-- Claim C10, as amended: a run of `starting` at `t0` followed by control cycles
at non-decreasing times, on a controller with consistent sizes, with any publish
rate, any availability of the publish channel, any hardware readings and any
twist commands in between, returns; its last-publish time is at most the time
of the latest cycle, and the number `m` of feedback messages it published
satisfies `m * Duration (1 / publish_rate_) ≤ tn - t0`, with `m = 0` for a rate
that is not positive.  The bound `m ≤ max publish_rate_ 0 * (tn - t0)` follows
when the period `ros::Duration` holds is at least `1 / publish_rate_`. -/
theorem publish_count_bounded (Duration : ℚ → ℚ) (sol : Solvers) (variant : Variant)
    (self : CartesianVelocityControllerBase) (t0 : ℚ) (cycles : List Cycle)
    (hs : sized variant self)
    (ht : List.Chain (fun a b => a ≤ b) t0 (cycles.map Cycle.time)) :
    ∃ s0 sN m, CartesianVelocityControllerBase.starting self t0 = some s0 ∧
      run Duration sol variant s0 cycles = some (sN, m) ∧
      sN.last_publish_time_ ≤ lastTime t0 cycles ∧
      (m : ℚ) * Duration (1 / self.publish_rate_) ≤ lastTime t0 cycles - t0 ∧
      (self.publish_rate_ ≤ 0 → m = 0) ∧
      (1 / self.publish_rate_ ≤ Duration (1 / self.publish_rate_) →
        (m : ℚ) ≤ max self.publish_rate_ 0 * (lastTime t0 cycles - t0)) := by
  have hlen := hs.2.2.1
  have hs0 : sized variant { self with
      q_dt_cmd_ := List.replicate self.joint_handles_.length 0
        ++ self.q_dt_cmd_.drop self.joint_handles_.length
      x_dt_des_ := Twist.Zero
      last_publish_time_ := t0 } := by
    have e : (List.replicate self.joint_handles_.length (0 : ℚ)
        ++ self.q_dt_cmd_.drop self.joint_handles_.length).length = self.q_dt_cmd_.length := by
      simp; omega
    obtain ⟨p1, p2, p3, p4⟩ := hs
    refine ⟨p1, p2, ?_, ?_⟩
    · show self.joint_handles_.length ≤ (List.replicate self.joint_handles_.length (0 : ℚ)
        ++ self.q_dt_cmd_.drop self.joint_handles_.length).length
      rw [e]; exact p3
    · intro hv
      show 6 ≤ (List.replicate self.joint_handles_.length (0 : ℚ)
        ++ self.q_dt_cmd_.drop self.joint_handles_.length).length
      rw [e]; exact p4 hv
  obtain ⟨sN, m, hrun, _, hlN, hlastN, hm0⟩ :=
    run_spec Duration sol variant cycles _ t0 hs0 (le_refl _) ht
  change sN.last_publish_time_ = t0 + (m : ℚ) * Duration (1 / self.publish_rate_) at hlastN
  change self.publish_rate_ ≤ 0 → m = 0 at hm0
  have hmD : (m : ℚ) * Duration (1 / self.publish_rate_) ≤ lastTime t0 cycles - t0 := by
    linarith
  refine ⟨_, sN, m, ?_, hrun, hlN, hmD, hm0, ?_⟩
  · unfold CartesianVelocityControllerBase.starting
    rw [zeroLoop_eq _ _ hlen]
  · intro hD
    by_cases hR : 0 < self.publish_rate_
    · rw [max_eq_left (le_of_lt hR)]
      have h0 : (m : ℚ) * (1 / self.publish_rate_)
          ≤ (m : ℚ) * Duration (1 / self.publish_rate_) :=
        mul_le_mul_of_nonneg_left hD (Nat.cast_nonneg m)
      have h1 : (m : ℚ) * (1 / self.publish_rate_) ≤ lastTime t0 cycles - t0 :=
        le_trans h0 hmD
      have h2 : (m : ℚ) = self.publish_rate_ * ((m : ℚ) * (1 / self.publish_rate_)) := by
        field_simp
      rw [h2]
      exact mul_le_mul_of_nonneg_left h1 (le_of_lt hR)
    · have hR0 : self.publish_rate_ ≤ 0 := not_lt.mp hR
      rw [hm0 hR0, max_eq_right hR0]
      simp

/-- Claim C10, as amended, on the two-joint controller and three cycles. -/
theorem publish_count_bounded_witness :
    sized Variant.CartesianVelocityControllerSim twoJointController ∧
    List.Chain (fun a b => a ≤ b) (0 : ℚ) (threeCycles.map Cycle.time) ∧
    ∃ s0 sN m, CartesianVelocityControllerBase.starting twoJointController 0 = some s0 ∧
      run nanosecondDuration idleSolvers Variant.CartesianVelocityControllerSim s0 threeCycles
        = some (sN, m) ∧
      sN.last_publish_time_ ≤ lastTime 0 threeCycles ∧
      (m : ℚ) * nanosecondDuration (1 / twoJointController.publish_rate_)
        ≤ lastTime 0 threeCycles - 0 ∧
      (twoJointController.publish_rate_ ≤ 0 → m = 0) ∧
      (1 / twoJointController.publish_rate_
          ≤ nanosecondDuration (1 / twoJointController.publish_rate_) →
        (m : ℚ) ≤ max twoJointController.publish_rate_ 0 * (lastTime 0 threeCycles - 0)) :=
  ⟨by decide, by simp [threeCycles],
    publish_count_bounded nanosecondDuration idleSolvers
      Variant.CartesianVelocityControllerSim twoJointController 0 threeCycles
      (by decide) (by simp [threeCycles])⟩

/-- Claim C10 fails as stated: at `publish_rate_ = 3` the period `ros::Duration`
holds is 333333333 ns, less than a third of a second.  After `starting` at
time 0, four cycles at 0.333333334 s, 0.666666667 s, 1 s and 1.333333333 s with
the publish channel free publish four messages, more than
`3 * 1.333333333 = 3.999999999`. -/
theorem publish_count_exceeds_rate_bound :
    sized Variant.CartesianVelocityControllerSim threeHertzController ∧
    List.Chain (fun a b => a ≤ b) (0 : ℚ) (fourCycles.map Cycle.time) ∧
    nanosecondDuration (1 / threeHertzController.publish_rate_) = 333333333 / 1000000000 ∧
    ∃ s0 sN, CartesianVelocityControllerBase.starting threeHertzController 0 = some s0 ∧
      run nanosecondDuration idleSolvers Variant.CartesianVelocityControllerSim s0 fourCycles
        = some (sN, 4) ∧
      ¬ (((4 : ℕ) : ℚ) ≤ max threeHertzController.publish_rate_ 0
          * (lastTime 0 fourCycles - 0)) := by
  have hD : nanosecondDuration (1 / 3) = 333333333 / 1000000000 := by
    unfold nanosecondDuration
    have : ⌊(1 / 3 : ℚ) * 1000000000 + 1 / 2⌋ = 333333333 := by
      rw [Int.floor_eq_iff]; norm_num
    rw [this]; norm_num
  refine ⟨by decide, by norm_num [fourCycles], hD,
    { threeHertzController with
      q_dt_cmd_ := [0, 0], x_dt_des_ := Twist.Zero, last_publish_time_ := 0 }, ?_⟩
  obtain ⟨s1, z1, r1, l1, k1⟩ := run_cons_publish nanosecondDuration idleSolvers
    Variant.CartesianVelocityControllerSim
    { threeHertzController with
      q_dt_cmd_ := [0, 0], x_dt_des_ := Twist.Zero, last_publish_time_ := 0 }
    ⟨333333334 / 1000000000, 1 / 125, true, [], none⟩
    [⟨666666667 / 1000000000, 1 / 125, true, [], none⟩, ⟨1, 1 / 125, true, [], none⟩,
      ⟨1333333333 / 1000000000, 1 / 125, true, [], none⟩]
    3 0 (333333333 / 1000000000) (by decide) rfl rfl hD (by norm_num) (by norm_num) rfl
  obtain ⟨s2, z2, r2, l2, k2⟩ := run_cons_publish nanosecondDuration idleSolvers
    Variant.CartesianVelocityControllerSim s1
    ⟨666666667 / 1000000000, 1 / 125, true, [], none⟩
    [⟨1, 1 / 125, true, [], none⟩, ⟨1333333333 / 1000000000, 1 / 125, true, [], none⟩]
    3 _ (333333333 / 1000000000) z1 r1 l1 hD (by norm_num) (by norm_num) rfl
  obtain ⟨s3, z3, r3, l3, k3⟩ := run_cons_publish nanosecondDuration idleSolvers
    Variant.CartesianVelocityControllerSim s2
    ⟨1, 1 / 125, true, [], none⟩
    [⟨1333333333 / 1000000000, 1 / 125, true, [], none⟩]
    3 _ (333333333 / 1000000000) z2 r2 l2 hD (by norm_num) (by norm_num) rfl
  obtain ⟨s4, _, _, _, k4⟩ := run_cons_publish nanosecondDuration idleSolvers
    Variant.CartesianVelocityControllerSim s3
    ⟨1333333333 / 1000000000, 1 / 125, true, [], none⟩ []
    3 _ (333333333 / 1000000000) z3 r3 l3 hD (by norm_num) (by norm_num) rfl
  refine ⟨s4, by decide, k1 _ _ (k2 _ _ (k3 _ _ (k4 _ _ rfl))), ?_⟩
  norm_num [threeHertzController, twoJointController, fourCycles, lastTime]

end UrModernDriver
